import Mathlib

/-!
Verification of the mattoni budget tracker's calculation and value-entry
engine.

This file shallowly embeds, in Lean 4, the algorithmically relevant code of
the repository: the rollup/cashflow computation of
`client/src/components/BudgetTable/BudgetTable.tsx`, the variance
computation of the comparison table, the expression evaluator and edit
session of `client/src/components/EditDrawer/EditDrawer.tsx`, the clipboard
parser (`parseClipboardTSV`, `valuesToMonthlyValues`) and the server route
`PUT /component/:componentId` of `server/src/routes/budget.ts`.

Modelling conventions:
* JavaScript numbers are modelled as exact rationals (`ℚ`); the code only
  performs `+ - * /` on them.
* A JavaScript object used as a partial map (e.g. `MonthlyValues`) is
  modelled as a function into `Option ℚ`; the idiom `obj[k] || 0` is
  modelled as `(f k).getD 0`.
* Strings are processed as their lists of characters; `String.data` is
  taken at the boundary.
* `parseFloat` is modelled by a prefix parser over sign/digits/fraction/
  exponent, returning `none` for NaN (the `"Infinity"` literal is not
  modelled; no code path under verification produces it).
-/

namespace Mattoni

/-! ## Character-level utilities shared by the parsers -/

/-- The character class `\s` of the JavaScript regexes used by the code
(common whitespace plus no-break space). -/
def isJsSpace (c : Char) : Bool :=
  c = ' ' || c = '\t' || c = '\n' || c = '\r' || c = '\x0b' || c = '\x0c' || c = ' '

/-- The character class `\d`. -/
def isDigitChar (c : Char) : Bool :=
  '0' ≤ c && c ≤ '9'

/-- Numeric value of a digit character. -/
def digitVal (c : Char) : ℕ :=
  c.toNat - 48

/-- Value of a digit string, most significant digit first. -/
def natOfDigits (ds : List Char) : ℕ :=
  ds.foldl (fun a c => 10 * a + digitVal c) 0

/-- JavaScript `String.prototype.trim`, on character lists. -/
def trimList (cs : List Char) : List Char :=
  ((cs.dropWhile isJsSpace).reverse.dropWhile isJsSpace).reverse

/-! ## A model of JavaScript `parseFloat`

`parseFloat` skips leading whitespace, then parses the longest prefix of
the form `[+-]? (\d+(\.\d*)? | \.\d+) ([eE][+-]?\d+)?` and ignores the
rest of the string; it returns NaN (modelled `none`) when no such prefix
exists. -/

/-- Parse the decimal mantissa `\d+(\.\d*)? | \.\d+` at the head of the
input; returns its value and the unconsumed rest. -/
def parseMantissa (cs : List Char) : Option (ℚ × List Char) :=
  let ip := cs.takeWhile isDigitChar
  let r1 := cs.dropWhile isDigitChar
  match r1 with
  | '.' :: r2 =>
    let fp := r2.takeWhile isDigitChar
    let r3 := r2.dropWhile isDigitChar
    if ip.isEmpty && fp.isEmpty then none
    else some ((natOfDigits ip : ℚ) + (natOfDigits fp : ℚ) / (10 : ℚ) ^ fp.length, r3)
  | _ => if ip.isEmpty then none else some ((natOfDigits ip : ℚ), r1)

/-- Parse an exponent part `[eE][+-]?\d+` at the head of the input. -/
def parseExpPart (cs : List Char) : Option (ℤ × List Char) :=
  match cs with
  | c :: rest =>
    if c = 'e' || c = 'E' then
      match rest with
      | '+' :: r2 =>
        let ds := r2.takeWhile isDigitChar
        if ds.isEmpty then none else some ((natOfDigits ds : ℤ), r2.dropWhile isDigitChar)
      | '-' :: r2 =>
        let ds := r2.takeWhile isDigitChar
        if ds.isEmpty then none else some (-(natOfDigits ds : ℤ), r2.dropWhile isDigitChar)
      | r2 =>
        let ds := r2.takeWhile isDigitChar
        if ds.isEmpty then none else some ((natOfDigits ds : ℤ), r2.dropWhile isDigitChar)
    else none
  | [] => none

/-- Scale a mantissa by a (possibly negative) power of ten. -/
def applyExp (q : ℚ) (e : ℤ) : ℚ :=
  if 0 ≤ e then q * (10 : ℚ) ^ e.toNat else q / (10 : ℚ) ^ (-e).toNat

/-- Unsigned part of `parseFloat`: mantissa followed by an optional
exponent (a malformed exponent part is ignored, prefix semantics). -/
def parseUnsignedFloat (cs : List Char) : Option ℚ :=
  (parseMantissa cs).map (fun p =>
    match parseExpPart p.2 with
    | some (e, _) => applyExp p.1 e
    | none => p.1)

/-- Model of JavaScript `parseFloat`; `none` stands for NaN. -/
def parseFloatJS (cs : List Char) : Option ℚ :=
  match cs.dropWhile isJsSpace with
  | '+' :: r => parseUnsignedFloat r
  | '-' :: r => (parseUnsignedFloat r).map (fun q => -q)
  | r => parseUnsignedFloat r

/-! ## ExpressionEvaluator (`evaluateExpression` in EditDrawer.tsx)

The code first requires an arithmetic operator somewhere in the trimmed
input, then tries the anchored regex
`^(\d+\.?\d*)\s*([+\-*/])\s*(\d+\.?\d*)%$` (percentage form) and then
`^(\d+\.?\d*)\s*([+\-*/])\s*(\d+\.?\d*)$` (basic form).  Both regexes
share the prefix `lit \s* op \s* lit`, which is deterministic here
(greedy matching cannot be saved by backtracking since an operator is
neither a digit, a dot nor a space), so the embedding parses that prefix
once and distinguishes the two forms by the unconsumed tail: `['%']` for
the percentage form, `[]` for the basic form. -/

/-- The operator class `[+\-*/]`. -/
def isOpChar (c : Char) : Bool :=
  c = '+' || c = '-' || c = '*' || c = '/'

/-- Parse an unsigned decimal literal `\d+\.?\d*` at the head of the
input; returns its numeric value and the unconsumed rest. -/
def parseLit (cs : List Char) : Option (ℚ × List Char) :=
  let ds := cs.takeWhile isDigitChar
  let r1 := cs.dropWhile isDigitChar
  if ds.isEmpty then none
  else
    match r1 with
    | '.' :: r2 =>
      let fs := r2.takeWhile isDigitChar
      some ((natOfDigits ds : ℚ) + (natOfDigits fs : ℚ) / (10 : ℚ) ^ fs.length,
            r2.dropWhile isDigitChar)
    | _ => some ((natOfDigits ds : ℚ), r1)

/-- Shared prefix `(\d+\.?\d*)\s*([+\-*/])\s*(\d+\.?\d*)` of the two
expression regexes; returns the two operands, the operator, and the
unconsumed tail. -/
def parseCore (cs : List Char) : Option (ℚ × Char × ℚ × List Char) :=
  match parseLit cs with
  | none => none
  | some (a, r1) =>
    match r1.dropWhile isJsSpace with
    | c :: r2 =>
      if isOpChar c then
        match parseLit (r2.dropWhile isJsSpace) with
        | none => none
        | some (b, r3) => some (a, c, b, r3)
      else none
    | [] => none

/-- Embeds `evaluateExpression` of `EditDrawer.tsx`: evaluate strings like
`"100+50"` or `"500-20%"`; `none` models the `null` result. -/
def evaluateExpression (input : String) : Option ℚ :=
  let trimmed := trimList input.data
  if !(trimmed.any isOpChar) then none
  else
    match parseCore trimmed with
    | some (baseNum, op, percent, ['%']) =>
      let percentNum := percent / 100
      if op = '+' then some (baseNum + baseNum * percentNum)
      else if op = '-' then some (baseNum - baseNum * percentNum)
      else if op = '*' then some (baseNum * percentNum)
      else if percentNum ≠ 0 then some (baseNum / percentNum) else none
    | some (a, op, b, []) =>
      if op = '+' then some (a + b)
      else if op = '-' then some (a - b)
      else if op = '*' then some (a * b)
      else if b ≠ 0 then some (a / b) else none
    | _ => none

/-- Embeds the numeric part of `commitValue` (and the identical inline
computation of `handleFillHandleMouseDown`):
`evaluated !== null ? evaluated : (editingValue === '' ? 0 : parseFloat(editingValue) || 0)`. -/
def commitValueNum (editingValue : String) : ℚ :=
  match evaluateExpression editingValue with
  | some v => v
  | none =>
    if editingValue = "" then 0
    else
      match parseFloatJS editingValue.data with
      | some v => v
      | none => 0

/-! ## Data model of the hierarchy (client `types/index.ts`) -/

inductive SectionType where
  | income
  | expense
deriving DecidableEq

structure Component where
  id : ℕ
  is_disabled : Bool
deriving DecidableEq

structure Group where
  id : ℕ
  is_disabled : Bool
  components : List Component
deriving DecidableEq

structure Section where
  id : ℕ
  type : SectionType
  groups : List Group
deriving DecidableEq

/-- `BudgetValues = Record<number, Record<number, number>>`: partial map
from component id and month to an amount. -/
def BudgetValues : Type :=
  ℕ → ℕ → Option ℚ

/-- Embeds `getComponentValue`: `budgetValues[componentId]?.[month] || 0`. -/
def getComponentValue (bv : BudgetValues) (componentId month : ℕ) : ℚ :=
  (bv componentId month).getD 0

/-! ## RollupEngine (the `calculations` memo of BudgetTable.tsx) -/

/-- `const signedValue = section.type === 'expense' ? -value : value`. -/
def signedValue (sectionType : SectionType) (value : ℚ) : ℚ :=
  if sectionType = SectionType.expense then -value else value

/-- One component's contribution to the totals of its group, section, and
the grand total: skipped (`continue`) when
`component.is_disabled || group.is_disabled`. -/
def componentContribution (sectionType : SectionType) (g : Group) (c : Component)
    (bv : BudgetValues) (month : ℕ) : ℚ :=
  if c.is_disabled || g.is_disabled then 0
  else signedValue sectionType (getComponentValue bv c.id month)

/-- Monthly total accumulated into `groupTotals[group.id][month]`. -/
def groupMonthTotal (sectionType : SectionType) (g : Group) (bv : BudgetValues)
    (month : ℕ) : ℚ :=
  (g.components.map (fun c => componentContribution sectionType g c bv month)).sum

/-- Monthly total accumulated into `sectionTotals[section.id][month]`. -/
def sectionMonthTotal (s : Section) (bv : BudgetValues) (month : ℕ) : ℚ :=
  (s.groups.map (fun g => groupMonthTotal s.type g bv month)).sum

/-- Monthly total accumulated into `grandTotals[month]`. -/
def grandMonthTotal (sections : List Section) (bv : BudgetValues) (month : ℕ) : ℚ :=
  (sections.map (fun s => sectionMonthTotal s bv month)).sum

/-! ## CashflowProjector (`isBeforeStartingDate` / `runningBalances`) -/

structure CashflowSettings where
  starting_balance : ℚ
  starting_year : ℤ
  starting_month : ℤ
deriving DecidableEq

/-- Embeds `isBeforeStartingDate` of BudgetTable.tsx. -/
def isBeforeStartingDate (cs : CashflowSettings) (checkYear : ℤ) (checkMonth : ℕ) : Bool :=
  if checkYear < cs.starting_year then true
  else if checkYear > cs.starting_year then false
  else decide ((checkMonth : ℤ) < cs.starting_month)

/-- Value of the loop accumulator `cumulative` after processing months
`1..m`: seeded with `starting_balance`, untouched on months that precede
the anchor, incremented by the month's grand total otherwise. -/
def cumulativeThrough (cs : CashflowSettings) (year : ℤ) (grand : ℕ → ℚ) : ℕ → ℚ
  | 0 => cs.starting_balance
  | m + 1 =>
    if isBeforeStartingDate cs year (m + 1) then cumulativeThrough cs year grand m
    else cumulativeThrough cs year grand m + grand (m + 1)

/-- Embeds `runningBalances[month]` of the `calculations` memo: `none`
models the `null` (dash) entries. -/
def runningBalance (cs : CashflowSettings) (year : ℤ) (grand : ℕ → ℚ) (month : ℕ) :
    Option ℚ :=
  if isBeforeStartingDate cs year month then none
  else some (cumulativeThrough cs year grand month)

/-! ## VarianceCalculator (ComparisonTable) -/

/-- The difference formula shared by the component-level `getDifference`
and the inline group/section `diff` computations:
`section.type === 'expense' ? budget - actual : actual - budget`. -/
def levelDiff (sectionType : SectionType) (budget actual : ℚ) : ℚ :=
  if sectionType = SectionType.expense then budget - actual else actual - budget

/-- Embeds `getDifference` of ComparisonTable. -/
def getDifference (budgetValues actualValues : BudgetValues)
    (componentId month : ℕ) (sectionType : SectionType) : ℚ :=
  levelDiff sectionType (getComponentValue budgetValues componentId month)
    (getComponentValue actualValues componentId month)

/-- Monthly unsigned per-group totals of the comparison table (same for
the budget and the actual side): a disabled group is skipped entirely
(`continue` before its totals exist; rendered as `|| 0`), a disabled
component is skipped. -/
def groupVarTotal (g : Group) (vals : BudgetValues) (month : ℕ) : ℚ :=
  if g.is_disabled then 0
  else (g.components.map (fun c =>
    if c.is_disabled then 0 else getComponentValue vals c.id month)).sum

/-- Monthly unsigned per-section totals of the comparison table. -/
def sectionVarTotal (s : Section) (vals : BudgetValues) (month : ℕ) : ℚ :=
  (s.groups.map (fun g => groupVarTotal g vals month)).sum

/-- Group-level diff row of the comparison table. -/
def groupDiffMonth (sectionType : SectionType) (g : Group)
    (budgetValues actualValues : BudgetValues) (month : ℕ) : ℚ :=
  levelDiff sectionType (groupVarTotal g budgetValues month) (groupVarTotal g actualValues month)

/-- Section-level diff row of the comparison table. -/
def sectionDiffMonth (s : Section) (budgetValues actualValues : BudgetValues)
    (month : ℕ) : ℚ :=
  levelDiff s.type (sectionVarTotal s budgetValues month) (sectionVarTotal s actualValues month)

inductive Favorability where
  | favorable
  | unfavorable
  | neutral
deriving DecidableEq

/-- Embeds the classification of `renderDifferenceCell`:
`diff === 0 ? 'diff-neutral' : (diff > 0 ? 'diff-favorable' : 'diff-unfavorable')`. -/
def classifyDifference (diff : ℚ) : Favorability :=
  let isFavorable := diff > 0
  if diff = 0 then Favorability.neutral
  else if isFavorable then Favorability.favorable
  else Favorability.unfavorable

/-! ## ClipboardTableParser (`utils/clipboard.ts`) -/

/-- The currency class `[€$£¥]` of `parseClipboardTSV`. -/
def isCurrencyChar (c : Char) : Bool :=
  c = '€' || c = '$' || c = '£' || c = '¥'

/-- `.replace(/[€$£¥]/g, '')`. -/
def stripCurrency (cs : List Char) : List Char :=
  cs.filter (fun c => !isCurrencyChar c)

/-- `.replace(/\s/g, '')`. -/
def stripSpaces (cs : List Char) : List Char :=
  cs.filter (fun c => !isJsSpace c)

/-- The anchor-side view of `/,\d{1,2}$/` on the reversed string: last
character a digit right after a comma, or last two characters digits
right after a comma. -/
def commaDecimalRev : List Char → Bool
  | d1 :: c2 :: rest =>
    if c2 = ',' then isDigitChar d1
    else
      match rest with
      | c3 :: _ => if c3 = ',' then isDigitChar d1 && isDigitChar c2 else false
      | [] => false
  | _ => false

/-- The test `/,\d{1,2}$/`: the string ends with a comma followed by one
or two digits. -/
def hasCommaDecimal (cs : List Char) : Bool :=
  commaDecimalRev cs.reverse

/-- Three digits at the head of the input (the `\d{3}` part of `/\.\d{3}/`). -/
def threeDigitsAt : List Char → Bool
  | a :: b :: c :: _ => isDigitChar a && isDigitChar b && isDigitChar c
  | _ => false

/-- The test `/\.\d{3}/`: somewhere in the string, a dot is followed by
three digits (more digits may follow — the regex is unanchored). -/
def hasDotThousands : List Char → Bool
  | [] => false
  | c :: rest => (c = '.' && threeDigitsAt rest) || hasDotThousands rest

/-- `.replace(/\./g, '')`. -/
def stripDots (cs : List Char) : List Char :=
  cs.filter (fun c => !(c = '.'))

/-- `.replace(',', '.')`: only the first comma is replaced (string
argument, not a global regex). -/
def replaceFirstComma : List Char → List Char
  | [] => []
  | ',' :: rest => '.' :: rest
  | c :: rest => c :: replaceFirstComma rest

/-- `.replace(/,/g, '')`. -/
def stripCommas (cs : List Char) : List Char :=
  cs.filter (fun c => !(c = ','))

/-- Full match of `\d+\.?\d*` against the whole input. -/
def isFullLit (cs : List Char) : Bool :=
  let ds := cs.takeWhile isDigitChar
  let r1 := cs.dropWhile isDigitChar
  if ds.isEmpty then false
  else
    match r1 with
    | [] => true
    | '.' :: r2 => r2.all isDigitChar
    | _ => false

/-- The match `^\((\d+\.?\d*)\)$` (accounting negatives): returns the
inner literal when the whole cell is a parenthesized number. -/
def parenInner (cs : List Char) : Option (List Char) :=
  match cs with
  | '(' :: rest =>
    match rest.reverse with
    | ')' :: revMid =>
      let mid := revMid.reverse
      if isFullLit mid then some mid else none
    | _ => none
  | _ => none

/-- The per-cell body of the `parseClipboardTSV` loop, applied to the
already-trimmed cell text: returns the parsed value and whether an
"Invalid value" error was recorded (in which case the value is `0`). -/
def parseCellTrimmed (raw : List Char) : ℚ × Bool :=
  if raw = [] ∨ raw = ['-'] then (0, false)
  else
    let cleaned := stripSpaces (stripCurrency raw)
    let cleaned2 :=
      if hasCommaDecimal cleaned || hasDotThousands cleaned then
        replaceFirstComma (stripDots cleaned)
      else stripCommas cleaned
    let cleaned3 :=
      match parenInner cleaned2 with
      | some inner => '-' :: inner
      | none => cleaned2
    match parseFloatJS cleaned3 with
    | some v => (v, false)
    | none => (0, true)

/-- Modelled from the claim wording for the European-format signal, which
asks for "a dot followed by exactly 3 digits": the maximal digit run
right after some dot has length exactly three.  (The code's unanchored
regex `/\.\d{3}/` instead also fires when more than three digits follow
the dot; see the counterexample below.) -/
def hasDotExactlyThree (cs : List Char) : Bool :=
  cs.tails.any fun t => t.headD ' ' == '.' && (t.tail.takeWhile isDigitChar).length == 3

/-- The per-cell parser as the claim words it, i.e. with the
"exactly 3 digits" locale signal; identical to `parseCellTrimmed` in
every other respect. -/
def parseCellClaimed (raw : List Char) : ℚ × Bool :=
  if raw = [] ∨ raw = ['-'] then (0, false)
  else
    let cleaned := stripSpaces (stripCurrency raw)
    let cleaned2 :=
      if hasCommaDecimal cleaned || hasDotExactlyThree cleaned then
        replaceFirstComma (stripDots cleaned)
      else stripCommas cleaned
    let cleaned3 :=
      match parenInner cleaned2 with
      | some inner => '-' :: inner
      | none => cleaned2
    match parseFloatJS cleaned3 with
    | some v => (v, false)
    | none => (0, true)

/-- JavaScript `text.split('\t')` on character lists. -/
def splitOnTabAux : List Char → List Char → List (List Char)
  | [], acc => [acc.reverse]
  | '\t' :: rest, acc => acc.reverse :: splitOnTabAux rest []
  | c :: rest, acc => splitOnTabAux rest (c :: acc)

def splitOnTab (cs : List Char) : List (List Char) :=
  splitOnTabAux cs []

/-- The error string pushed for an unparsable cell. -/
def mkInvalidMsg (pos : ℕ) (raw : String) : String :=
  "Invalid value at position " ++ toString pos ++ ": \"" ++ raw ++ "\""

/-- The `parseClipboardTSV` loop over (at most 12) tab-separated fields,
carried 0-based index `i`; produces `(values, rawValues, errors)`. -/
def parseCellsAux : List (List Char) → ℕ → List ℚ × List String × List String
  | [], _ => ([], [], [])
  | p :: rest, i =>
    let raw := trimList p
    let res := parseCellsAux rest (i + 1)
    let cell := parseCellTrimmed raw
    (cell.1 :: res.1,
     String.mk raw :: res.2.1,
     (if cell.2 then [mkInvalidMsg (i + 1) (String.mk raw)] else []) ++ res.2.2)

structure ParsedClipboardData where
  values : List ℚ
  rawValues : List String
  errors : List String
  isValid : Bool
deriving DecidableEq

/-- Embeds `parseClipboardTSV` of `utils/clipboard.ts`. -/
def parseClipboardTSV (text : String) : ParsedClipboardData :=
  let parts := splitOnTab (trimList text.data)
  if parts.length = 0 ∨ (parts.length = 1 ∧ parts.headD [] = []) then
    { values := [], rawValues := [],
      errors := ["No data found in clipboard"], isValid := false }
  else
    let res := parseCellsAux (parts.take 12) 0
    { values := res.1, rawValues := res.2.1, errors := res.2.2,
      isValid := res.2.2.isEmpty && !res.1.isEmpty }

/-- Embeds `valuesToMonthlyValues`: assign `values[i]` to month
`startMonth + i` while `startMonth + i <= 12`, as an association list in
loop order. -/
def vtmAux : List ℚ → ℕ → List (ℕ × ℚ)
  | [], _ => []
  | v :: rest, m => if m ≤ 12 then (m, v) :: vtmAux rest (m + 1) else []

def valuesToMonthlyValues (values : List ℚ) (startMonth : ℕ) : List (ℕ × ℚ) :=
  vtmAux values startMonth

/-- Key lookup in the produced month object. -/
def lookupMonth (l : List (ℕ × ℚ)) (m : ℕ) : Option ℚ :=
  (l.find? (fun p => p.1 == m)).map (fun p => p.2)

/-- Embeds the merge `{ ...prev, ...newMonthlyValues }` of
`handlePasteConfirm`: keys of the pasted object override, all other
months keep their previous binding. -/
def mergePaste (prev : ℕ → Option ℚ) (pasted : List (ℕ × ℚ)) : ℕ → Option ℚ :=
  fun m =>
    match lookupMonth pasted m with
    | some v => some v
    | none => prev m

/-! ## EditSessionController: drag-fill (EditDrawer.tsx) -/

/-- The buffered edit-session state relevant to the fill gesture:
`values` is the `MonthlyValues` object, `hasChanges` the dirty flag,
`editingMonth`/`editingValue` the in-progress keyboard edit. -/
structure EditSession where
  values : ℕ → Option ℚ
  hasChanges : Bool
  editingMonth : Option ℕ
  editingValue : String

/-- Embeds `handleFillHandleMouseDown`: capture the source value — from
the in-progress edit when `editingMonth === month && editingValue` is
truthy (committing the edit as a side effect), otherwise
`values[month] || 0`.  Returns the updated state and the captured value
(`dragSourceValueRef.current`). -/
def handleFillHandleMouseDown (st : EditSession) (month : ℕ) : EditSession × ℚ :=
  if st.editingMonth = some month ∧ st.editingValue ≠ "" then
    let sourceValue := commitValueNum st.editingValue
    ({ st with
        values := fun m => if m = month then some sourceValue else st.values m,
        hasChanges := true,
        editingMonth := none,
        editingValue := "" },
     sourceValue)
  else (st, (st.values month).getD 0)

/-- The assignment loop `for (let i = start; i <= end; i++) newValues[i] = sourceValue`. -/
def fillLoopValues (values : ℕ → Option ℚ) (sourceValue : ℚ) (start fin : ℕ) :
    ℕ → Option ℚ :=
  (List.range' start (fin + 1 - start)).foldl
    (fun acc i => fun m => if m = i then some sourceValue else acc m) values

/-- Embeds the value-map effect of `handleMouseUp`: when
`dragStart !== dragEnd`, overwrite every month of
`[min(dragStart, dragEnd), max(dragStart, dragEnd)]` with the captured
source value and set the dirty flag; otherwise leave the buffer alone. -/
def handleMouseUp (st : EditSession) (dragStart dragEnd : ℕ) (sourceValue : ℚ) :
    EditSession :=
  if dragStart ≠ dragEnd then
    { st with
        values := fillLoopValues st.values sourceValue (min dragStart dragEnd)
          (max dragStart dragEnd),
        hasChanges := true }
  else st

/-! ## Server route `PUT /component/:componentId` (routes/budget.ts) -/

inductive RouteResult where
  | badRequest
  | notFound
  | success
deriving DecidableEq

/-- Server-side state: the `components` table (ids) and the
`budget_values` table keyed by `(component_id, year, month)`. -/
structure Db where
  components : List ℕ
  budget_values : ℕ → ℤ → ℤ → Option ℚ

/-- The upsert
`INSERT ... ON CONFLICT(component_id, year, month) DO UPDATE SET amount`. -/
def upsertBudgetValue (db : Db) (componentId : ℕ) (year month : ℤ) (amount : ℚ) : Db :=
  { db with
      budget_values := fun c y m =>
        if c = componentId ∧ y = year ∧ m = month then some amount
        else db.budget_values c y m }

/-- JavaScript truthiness test `!year` on the request body field
(absent, `null` and `0` are all falsy). -/
def isFalsyYear : Option ℤ → Bool
  | none => true
  | some y => y == 0

/-- Embeds the handler of `PUT /component/:componentId`: body fields
`year` and `values` (entries `(parseInt(month), amount)` in object
order); months outside `[1, 12]` are skipped inside the transaction,
everything else is upserted. -/
def putComponentValues (db : Db) (componentId : ℕ) (year : Option ℤ)
    (values : Option (List (ℤ × ℚ))) : RouteResult × Db :=
  if isFalsyYear year || values.isNone then (RouteResult.badRequest, db)
  else
    let yr := year.getD 0
    let vs := values.getD []
    if !(db.components.contains componentId) then (RouteResult.notFound, db)
    else
      (RouteResult.success,
        vs.foldl (fun acc mv =>
          if 1 ≤ mv.1 ∧ mv.1 ≤ 12 then upsertBudgetValue acc componentId yr mv.1 mv.2
          else acc) db)

/-- Unconditional application of a list of `(month, amount)` entries. -/
def applyEntries (db : Db) (componentId : ℕ) (year : ℤ) (entries : List (ℤ × ℚ)) : Db :=
  entries.foldl (fun acc mv => upsertBudgetValue acc componentId year mv.1 mv.2) db

/-! ## Helper lemmas -/

/-- A map-sum whose summand is zeroed out on skipped elements equals the
map-sum over the filtered list. -/
theorem sum_map_skip_eq_sum_filter {α : Type} (l : List α) (p : α → Bool) (f : α → ℚ) :
    (l.map fun a => if p a then 0 else f a).sum
      = ((l.filter fun a => !p a).map f).sum := by
  induction l with
  | nil => simp
  | cons a l ih => by_cases h : p a <;> simp [h, ih]

/-- Closed form of the running-balance accumulator: starting balance plus
the grand totals of the non-skipped months `1..m`. -/
theorem cumulativeThrough_eq (cs : CashflowSettings) (y : ℤ) (g : ℕ → ℚ) (m : ℕ) :
    cumulativeThrough cs y g m =
      cs.starting_balance
        + (((List.range' 1 m).filter fun k => !isBeforeStartingDate cs y k).map g).sum := by
  induction m with
  | zero => simp [cumulativeThrough]
  | succ m ih =>
    have hr : List.range' 1 (m + 1) = List.range' 1 m ++ [m + 1] := by
      simpa [Nat.add_comm] using @List.range'_concat 1 1 m
    by_cases hb : isBeforeStartingDate cs y (m + 1)
    · simp [cumulativeThrough, hb, ih, hr, List.filter_append]
    · simp [cumulativeThrough, hb, ih, hr, List.filter_append]
      ring

/-- The rest returned by `parseLit` is a suffix of its input. -/
theorem parseLit_rest_suffix {cs r : List Char} {q : ℚ} (h : parseLit cs = some (q, r)) :
    r <:+ cs := by
  simp only [parseLit] at h
  split at h
  · exact absurd h (by simp)
  · split at h
    · rename_i r2 heq
      simp only [Option.some.injEq, Prod.mk.injEq] at h
      obtain ⟨-, h2⟩ := h
      subst h2
      refine List.IsSuffix.trans (List.dropWhile_suffix isDigitChar) ?_
      refine List.IsSuffix.trans ?_ (List.dropWhile_suffix isDigitChar)
      rw [heq]
      exact ⟨['.'], rfl⟩
    · simp only [Option.some.injEq, Prod.mk.injEq] at h
      obtain ⟨-, h2⟩ := h
      subst h2
      exact List.dropWhile_suffix isDigitChar

/-- The operator produced by `parseCore` is an operator character and
occurs in the input. -/
theorem parseCore_op {cs : List Char} {a b : ℚ} {op : Char} {r : List Char}
    (h : parseCore cs = some (a, op, b, r)) : isOpChar op = true ∧ op ∈ cs := by
  unfold parseCore at h
  split at h
  · exact absurd h (by simp)
  · rename_i a' r1 heq1
    split at h
    · rename_i c r2 heq2
      split at h
      · rename_i hop
        split at h
        · exact absurd h (by simp)
        · simp only [Option.some.injEq, Prod.mk.injEq] at h
          obtain ⟨-, hco, -, -⟩ := h
          subst hco
          refine ⟨hop, ?_⟩
          have hsub : (r1.dropWhile isJsSpace) <:+ cs :=
            List.IsSuffix.trans (List.dropWhile_suffix isJsSpace) (parseLit_rest_suffix heq1)
          exact hsub.subset (heq2 ▸ List.mem_cons_self c r2)
      · exact absurd h (by simp)
    · exact absurd h (by simp)

/-- Membership in a trimmed string implies membership in the string. -/
theorem mem_of_mem_trimList {c : Char} {cs : List Char} (h : c ∈ trimList cs) : c ∈ cs := by
  unfold trimList at h
  rw [List.mem_reverse] at h
  have h2 := (List.dropWhile_suffix isJsSpace).subset h
  rw [List.mem_reverse] at h2
  exact (List.dropWhile_suffix isJsSpace).subset h2

/-- Values of `parseLit` are non-negative (unsigned literals). -/
theorem parseLit_nonneg {cs r : List Char} {q : ℚ} (h : parseLit cs = some (q, r)) :
    0 ≤ q := by
  simp only [parseLit] at h
  split at h
  · exact absurd h (by simp)
  · split at h <;> simp only [Option.some.injEq, Prod.mk.injEq] at h <;>
      obtain ⟨h1, -⟩ := h <;> subst h1
    · positivity
    · positivity

/-- Both operands produced by `parseCore` are non-negative. -/
theorem parseCore_nonneg {cs : List Char} {a b : ℚ} {op : Char} {r : List Char}
    (h : parseCore cs = some (a, op, b, r)) : 0 ≤ a ∧ 0 ≤ b := by
  unfold parseCore at h
  split at h
  · exact absurd h (by simp)
  · rename_i a' r1 heq1
    split at h
    · split at h
      · split at h
        · exact absurd h (by simp)
        · rename_i b' r3 heq3
          simp only [Option.some.injEq, Prod.mk.injEq] at h
          obtain ⟨ha, -, hb, -⟩ := h
          subst ha; subst hb
          exact ⟨parseLit_nonneg heq1, parseLit_nonneg heq3⟩
      · exact absurd h (by simp)
    · exact absurd h (by simp)

/-- Values of `parseMantissa` are non-negative. -/
theorem parseMantissa_nonneg {cs r : List Char} {q : ℚ} (h : parseMantissa cs = some (q, r)) :
    0 ≤ q := by
  simp only [parseMantissa] at h
  split at h
  · split at h
    · exact absurd h (by simp)
    · simp only [Option.some.injEq, Prod.mk.injEq] at h
      obtain ⟨h1, -⟩ := h
      subst h1
      positivity
  · split at h
    · exact absurd h (by simp)
    · simp only [Option.some.injEq, Prod.mk.injEq] at h
      obtain ⟨h1, -⟩ := h
      subst h1
      positivity

/-- Values of `parseUnsignedFloat` are non-negative. -/
theorem parseUnsignedFloat_nonneg {cs : List Char} {q : ℚ}
    (h : parseUnsignedFloat cs = some q) : 0 ≤ q := by
  simp only [parseUnsignedFloat, Option.map_eq_some'] at h
  obtain ⟨⟨q0, r⟩, hm, hf⟩ := h
  have h0 := parseMantissa_nonneg hm
  subst hf
  dsimp only
  split
  · unfold applyExp
    split
    · exact mul_nonneg h0 (by positivity)
    · exact div_nonneg h0 (by positivity)
  · exact h0

/-- `parseFloat` of a string without a minus sign is non-negative. -/
theorem parseFloatJS_nonneg {cs : List Char} {q : ℚ} (hm : ('-' : Char) ∉ cs)
    (h : parseFloatJS cs = some q) : 0 ≤ q := by
  unfold parseFloatJS at h
  split at h
  · exact parseUnsignedFloat_nonneg h
  · rename_i r heq
    exact absurd ((List.dropWhile_suffix isJsSpace).subset (heq ▸ List.mem_cons_self '-' r)) hm
  · exact parseUnsignedFloat_nonneg h

/-- An expression over a string without a minus sign evaluates to a
non-negative value: the operands are unsigned literals and the operator
cannot be subtraction. -/
theorem evaluateExpression_nonneg {s : String} {v : ℚ} (hm : ('-' : Char) ∉ s.data)
    (h : evaluateExpression s = some v) : 0 ≤ v := by
  simp only [evaluateExpression] at h
  split at h
  · exact absurd h (by simp)
  · split at h
    · rename_i b op p heq
      have hops := parseCore_op heq
      have hno : op ≠ '-' := fun hc => hm (mem_of_mem_trimList (hc ▸ hops.2))
      have hbp := parseCore_nonneg heq
      have hcases : op = '+' ∨ op = '-' ∨ op = '*' ∨ op = '/' := by
        have h1 := hops.1
        simp only [isOpChar, Bool.or_eq_true, decide_eq_true_eq] at h1
        tauto
      have hb := hbp.1
      have hp := hbp.2
      rcases hcases with rfl | rfl | rfl | rfl
      · rw [if_pos rfl] at h
        simp only [Option.some.injEq] at h
        subst h
        positivity
      · exact absurd rfl hno
      · rw [if_neg (by decide), if_neg (by decide), if_pos rfl] at h
        simp only [Option.some.injEq] at h
        subst h
        positivity
      · rw [if_neg (by decide), if_neg (by decide), if_neg (by decide)] at h
        split at h
        · simp only [Option.some.injEq] at h
          subst h
          exact div_nonneg hb (div_nonneg hp (by norm_num))
        · exact absurd h (by simp)
    · rename_i a op b heq
      have hops := parseCore_op heq
      have hno : op ≠ '-' := fun hc => hm (mem_of_mem_trimList (hc ▸ hops.2))
      have hab := parseCore_nonneg heq
      have hcases : op = '+' ∨ op = '-' ∨ op = '*' ∨ op = '/' := by
        have h1 := hops.1
        simp only [isOpChar, Bool.or_eq_true, decide_eq_true_eq] at h1
        tauto
      have ha := hab.1
      have hb := hab.2
      rcases hcases with rfl | rfl | rfl | rfl
      · rw [if_pos rfl] at h
        simp only [Option.some.injEq] at h
        subst h
        exact add_nonneg ha hb
      · exact absurd rfl hno
      · rw [if_neg (by decide), if_neg (by decide), if_pos rfl] at h
        simp only [Option.some.injEq] at h
        subst h
        exact mul_nonneg ha hb
      · rw [if_neg (by decide), if_neg (by decide), if_neg (by decide)] at h
        split at h
        · simp only [Option.some.injEq] at h
          subst h
          exact div_nonneg ha hb
        · exact absurd h (by simp)
    · exact absurd h (by simp)

/-! ## Claim theorems -/

/-- C1: the rollup computes every Group, Section and grand monthly total
as the sum of the signed contributions of the non-excluded components
(excluded iff the component's own flag or its parent group's flag is
set), the signed contribution being the raw amount for an income section
and its negation for an expense section; missing months read as 0.  In
particular an expense section with two enabled components worth 100 and
50 in month 1 totals -150, and a component inside a disabled group
contributes nothing even when itself enabled. -/
theorem rollup_correct :
    (∀ v : ℚ, signedValue SectionType.income v = v) ∧
    (∀ v : ℚ, signedValue SectionType.expense v = -v) ∧
    (∀ c m : ℕ, getComponentValue (fun _ _ => none) c m = 0) ∧
    (∀ (kind : SectionType) (g : Group) (bv : BudgetValues) (m : ℕ),
      groupMonthTotal kind g bv m =
        ((g.components.filter fun c => !(c.is_disabled || g.is_disabled)).map
          fun c => signedValue kind (getComponentValue bv c.id m)).sum) ∧
    (∀ (s : Section) (bv : BudgetValues) (m : ℕ),
      sectionMonthTotal s bv m =
        (s.groups.map fun g =>
          ((g.components.filter fun c => !(c.is_disabled || g.is_disabled)).map
            fun c => signedValue s.type (getComponentValue bv c.id m)).sum).sum) ∧
    (∀ (sections : List Section) (bv : BudgetValues) (m : ℕ),
      grandMonthTotal sections bv m = (sections.map fun s => sectionMonthTotal s bv m).sum) ∧
    sectionMonthTotal
      ⟨1, SectionType.expense, [⟨10, false, [⟨100, false⟩, ⟨101, false⟩]⟩]⟩
      (fun c m => if c = 100 ∧ m = 1 then some 100
                  else if c = 101 ∧ m = 1 then some 50 else none) 1 = -150 ∧
    sectionMonthTotal
      ⟨2, SectionType.expense, [⟨20, true, [⟨200, false⟩]⟩]⟩
      (fun c m => if c = 200 ∧ m = 1 then some 100 else none) 1 = 0 ∧
    grandMonthTotal
      [⟨2, SectionType.expense, [⟨20, true, [⟨200, false⟩]⟩]⟩]
      (fun c m => if c = 200 ∧ m = 1 then some 100 else none) 1 = 0 := by
  refine ⟨fun v => rfl, fun v => by simp [signedValue], fun c m => rfl, ?_, ?_, fun s bv m => rfl,
    by with_unfolding_all rfl, by with_unfolding_all rfl, by with_unfolding_all rfl⟩
  · intro kind g bv m
    simpa [groupMonthTotal, componentContribution] using
      sum_map_skip_eq_sum_filter g.components
        (fun c => c.is_disabled || g.is_disabled)
        (fun c => signedValue kind (getComponentValue bv c.id m))
  · intro s bv m
    unfold sectionMonthTotal
    congr 1
    refine List.map_congr_left fun g _ => ?_
    simpa [groupMonthTotal, componentContribution] using
      sum_map_skip_eq_sum_filter g.components
        (fun c => c.is_disabled || g.is_disabled)
        (fun c => signedValue s.type (getComponentValue bv c.id m))

/-- C2: the projected running balance seeds an accumulator with the
starting balance and walks months 1..12: a month is undefined iff it
strictly precedes the anchor (earlier year, or same year and earlier
month); otherwise the month's grand signed total is accumulated and the
new value output — equivalently, starting balance plus the sum of the
grand totals of the non-preceding months up to the queried month.  With
anchor {1000, 2024, 3} and 2024 totals +300 in month 3 and -100 in
month 4, months 1-2 are undefined, month 3 is 1300 and month 4 is 1200. -/
theorem runningBalance_correct :
    (∀ (cs : CashflowSettings) (y : ℤ) (m : ℕ),
      isBeforeStartingDate cs y m = true ↔
        (y < cs.starting_year ∨ (y = cs.starting_year ∧ (m : ℤ) < cs.starting_month))) ∧
    (∀ (cs : CashflowSettings) (y : ℤ) (g : ℕ → ℚ) (m : ℕ),
      runningBalance cs y g m =
        if isBeforeStartingDate cs y m then none
        else some (cs.starting_balance
          + (((List.range' 1 m).filter fun k => !isBeforeStartingDate cs y k).map g).sum)) ∧
    runningBalance ⟨1000, 2024, 3⟩ 2024
      (fun m => if m = 3 then (300 : ℚ) else if m = 4 then -100 else 0) 1 = none ∧
    runningBalance ⟨1000, 2024, 3⟩ 2024
      (fun m => if m = 3 then (300 : ℚ) else if m = 4 then -100 else 0) 2 = none ∧
    runningBalance ⟨1000, 2024, 3⟩ 2024
      (fun m => if m = 3 then (300 : ℚ) else if m = 4 then -100 else 0) 3 = some 1300 ∧
    runningBalance ⟨1000, 2024, 3⟩ 2024
      (fun m => if m = 3 then (300 : ℚ) else if m = 4 then -100 else 0) 4 = some 1200 := by
  refine ⟨?_, ?_, by with_unfolding_all rfl, by with_unfolding_all rfl,
    by with_unfolding_all rfl, by with_unfolding_all rfl⟩
  · intro cs y m
    simp only [isBeforeStartingDate]
    split_ifs with h1 h2 <;> simp <;> omega
  · intro cs y g m
    unfold runningBalance
    rw [cumulativeThrough_eq]

/-- C3: at every level, the budget-vs-actual difference is
`budget - actual` for an expense section and `actual - budget` for an
income section, and a difference is displayed favorable iff it is
positive, unfavorable iff negative, neutral iff zero.  Expense 500 vs
450 gives +50 favorable; income 500 vs 600 gives +100 favorable; equal
values give 0 neutral. -/
theorem variance_correct :
    (∀ b a : ℚ, levelDiff SectionType.expense b a = b - a) ∧
    (∀ b a : ℚ, levelDiff SectionType.income b a = a - b) ∧
    (∀ (bv av : BudgetValues) (c m : ℕ) (t : SectionType),
      getDifference bv av c m t
        = levelDiff t (getComponentValue bv c m) (getComponentValue av c m)) ∧
    (∀ (t : SectionType) (g : Group) (bv av : BudgetValues) (m : ℕ),
      groupDiffMonth t g bv av m
        = levelDiff t (groupVarTotal g bv m) (groupVarTotal g av m)) ∧
    (∀ (s : Section) (bv av : BudgetValues) (m : ℕ),
      sectionDiffMonth s bv av m
        = levelDiff s.type (sectionVarTotal s bv m) (sectionVarTotal s av m)) ∧
    (∀ d : ℚ,
      (classifyDifference d = Favorability.favorable ↔ 0 < d) ∧
      (classifyDifference d = Favorability.unfavorable ↔ d < 0) ∧
      (classifyDifference d = Favorability.neutral ↔ d = 0)) ∧
    levelDiff SectionType.expense 500 450 = 50 ∧
    classifyDifference 50 = Favorability.favorable ∧
    levelDiff SectionType.income 500 600 = 100 ∧
    classifyDifference 100 = Favorability.favorable ∧
    levelDiff SectionType.expense 500 500 = 0 ∧
    classifyDifference 0 = Favorability.neutral := by
  refine ⟨fun b a => rfl, fun b a => by simp [levelDiff], fun bv av c m t => rfl,
    fun t g bv av m => rfl, fun s bv av m => rfl, ?_,
    by with_unfolding_all rfl, by with_unfolding_all rfl, by with_unfolding_all rfl,
    by with_unfolding_all rfl, by with_unfolding_all rfl, by with_unfolding_all rfl⟩
  intro d
  unfold classifyDifference
  by_cases h0 : d = 0
  · subst h0; norm_num; exact ⟨by decide, by decide⟩
  · by_cases hp : 0 < d
    · have : ¬ d < 0 := by linarith
      simp [h0, hp, this]
    · have hn : d < 0 := lt_of_le_of_ne (not_lt.mp hp) h0
      simp [h0, hp, hn]

/-- C4: an input matching the percentage form `BASE OP PCT%` (unsigned
decimal literals, operator in `+ - * /`) evaluates to
BASE + BASE*PCT/100 for `+`, BASE - BASE*PCT/100 for `-`, BASE*PCT/100
for `*`, and BASE / (PCT/100) for `/` with PCT nonzero, failing when PCT
is zero; an input matching the basic form `LEFT OP RIGHT` applies the
operator arithmetically with division by zero failing.  In particular
"100+10%" evaluates to 110 and "200*3" to 600. -/
theorem evaluateExpression_correct :
    (∀ (s : String) (b p : ℚ) (op : Char),
      parseCore (trimList s.data) = some (b, op, p, ['%']) →
      evaluateExpression s =
        (if op = '+' then some (b + b * p / 100)
         else if op = '-' then some (b - b * p / 100)
         else if op = '*' then some (b * p / 100)
         else if p = 0 then none else some (b / (p / 100)))) ∧
    (∀ (s : String) (a b : ℚ) (op : Char),
      parseCore (trimList s.data) = some (a, op, b, []) →
      evaluateExpression s =
        (if op = '+' then some (a + b)
         else if op = '-' then some (a - b)
         else if op = '*' then some (a * b)
         else if b = 0 then none else some (a / b))) ∧
    evaluateExpression "100+10%" = some 110 ∧
    evaluateExpression "200*3" = some 600 := by
  refine ⟨?_, ?_, by with_unfolding_all rfl, by with_unfolding_all rfl⟩
  · intro s b p op h
    have hops := parseCore_op h
    have hany : (trimList s.data).any isOpChar = true :=
      List.any_eq_true.mpr ⟨op, hops.2, hops.1⟩
    have hcases : op = '+' ∨ op = '-' ∨ op = '*' ∨ op = '/' := by
      have h1 := hops.1
      simp only [isOpChar, Bool.or_eq_true, decide_eq_true_eq] at h1
      tauto
    rcases hcases with rfl | rfl | rfl | rfl
    · simp only [evaluateExpression, hany, h, Bool.not_true, Bool.false_eq_true, if_false,
        if_pos rfl, if_true]
      rw [mul_div_assoc]
    · rw [if_neg (by decide), if_pos rfl]
      simp only [evaluateExpression, hany, h, Bool.not_true, Bool.false_eq_true, if_false,
        if_neg (show ¬('-' : Char) = '+' by decide), if_pos rfl, if_true]
      rw [mul_div_assoc]
    · rw [if_neg (by decide), if_neg (by decide), if_pos rfl]
      simp only [evaluateExpression, hany, h, Bool.not_true, Bool.false_eq_true, if_false,
        if_neg (show ¬('*' : Char) = '+' by decide),
        if_neg (show ¬('*' : Char) = '-' by decide), if_pos rfl, if_true]
      rw [mul_div_assoc]
    · rw [if_neg (by decide), if_neg (by decide), if_neg (by decide)]
      simp only [evaluateExpression, hany, h, Bool.not_true, Bool.false_eq_true, if_false,
        if_neg (show ¬('/' : Char) = '+' by decide),
        if_neg (show ¬('/' : Char) = '-' by decide),
        if_neg (show ¬('/' : Char) = '*' by decide), if_true]
      by_cases hp : p = 0
      · simp [hp]
      · rw [if_neg hp, if_pos (div_ne_zero hp (by norm_num))]
  · intro s a b op h
    have hops := parseCore_op h
    have hany : (trimList s.data).any isOpChar = true :=
      List.any_eq_true.mpr ⟨op, hops.2, hops.1⟩
    have hcases : op = '+' ∨ op = '-' ∨ op = '*' ∨ op = '/' := by
      have h1 := hops.1
      simp only [isOpChar, Bool.or_eq_true, decide_eq_true_eq] at h1
      tauto
    rcases hcases with rfl | rfl | rfl | rfl
    · simp only [evaluateExpression, hany, h, Bool.not_true, Bool.false_eq_true, if_false,
        if_pos rfl, if_true]
    · rw [if_neg (by decide), if_pos rfl]
      simp only [evaluateExpression, hany, h, Bool.not_true, Bool.false_eq_true, if_false,
        if_neg (show ¬('-' : Char) = '+' by decide), if_pos rfl, if_true]
    · rw [if_neg (by decide), if_neg (by decide), if_pos rfl]
      simp only [evaluateExpression, hany, h, Bool.not_true, Bool.false_eq_true, if_false,
        if_neg (show ¬('*' : Char) = '+' by decide),
        if_neg (show ¬('*' : Char) = '-' by decide), if_pos rfl, if_true]
    · rw [if_neg (by decide), if_neg (by decide), if_neg (by decide)]
      simp only [evaluateExpression, hany, h, Bool.not_true, Bool.false_eq_true, if_false,
        if_neg (show ¬('/' : Char) = '+' by decide),
        if_neg (show ¬('/' : Char) = '-' by decide),
        if_neg (show ¬('/' : Char) = '*' by decide), if_true]
      by_cases hb : b = 0
      · simp [hb]
      · rw [if_neg hb, if_pos hb]

/-- C4 witness: the percentage case of `evaluateExpression_correct`
instantiated at "100+10%". -/
theorem evaluateExpression_correct_witness :
    parseCore (trimList ("100+10%".data)) = some (100, '+', 10, ['%']) ∧
    evaluateExpression "100+10%" = some 110 := by
  have hp : parseCore (trimList ("100+10%".data)) = some (100, '+', 10, ['%']) := by
    with_unfolding_all rfl
  refine ⟨hp, ?_⟩
  have h := evaluateExpression_correct.1 "100+10%" 100 10 '+' hp
  rw [h]
  norm_num

/-- C5 counterexample: committing the typed text "100/0%" does not store
0 — `parseFloat("100/0%")` parses the numeric prefix `100`, so the
fallback stores 100. -/
theorem commitValueNum_div_zero_percent_ne_zero : commitValueNum "100/0%" ≠ 0 := by
  have h : commitValueNum "100/0%" = 100 := by with_unfolding_all rfl
  rw [h]
  norm_num

/-- C5 (amended): committing "100/0%" stores 100: the evaluator signals
failure on the division-by-zero-percent input (no infinity), and the
caller's fallback `parseFloat` parses the longest numeric prefix of the
whole string, which is "100". -/
theorem commitValueNum_div_zero_percent :
    evaluateExpression "100/0%" = none ∧
    parseFloatJS ("100/0%".data) = some 100 ∧
    commitValueNum "100/0%" = 100 :=
  ⟨by with_unfolding_all rfl, by with_unfolding_all rfl, by with_unfolding_all rfl⟩

/-- C8 counterexample: the committed amount is not always non-negative —
typing "100-200" commits -100. -/
theorem commitValueNum_negative_counterexample :
    commitValueNum "100-200" = -100 ∧ ¬ (0 ≤ commitValueNum "100-200") := by
  have h : commitValueNum "100-200" = -100 := by with_unfolding_all rfl
  refine ⟨h, ?_⟩
  rw [h]
  norm_num

/-- C8 (amended): a committed amount is non-negative whenever the typed
text contains no minus character: every evaluated expression over
unsigned literals with operator `+`, `*` or `/` is non-negative, and the
`parseFloat` fallback can only return a negative number from a leading
minus sign.  In general the commit path stores the evaluated or parsed
value unchanged and enforces no sign restriction. -/
theorem commitValueNum_nonneg (s : String) (h : ('-' : Char) ∉ s.data) :
    0 ≤ commitValueNum s := by
  unfold commitValueNum
  split
  · rename_i v heq
    exact evaluateExpression_nonneg h heq
  · split
    · norm_num
    · split
      · rename_i v heq
        exact parseFloatJS_nonneg h heq
      · norm_num

/-- C8 witness: `commitValueNum_nonneg` instantiated at "100+50". -/
theorem commitValueNum_nonneg_witness :
    ('-' : Char) ∉ "100+50".data ∧ 0 ≤ commitValueNum "100+50" :=
  ⟨by decide, commitValueNum_nonneg "100+50" (by decide)⟩

/-- Pointwise description of the fill-assignment loop over `range'`. -/
theorem fillLoop_apply (v : ℚ) :
    ∀ (n s : ℕ) (values : ℕ → Option ℚ) (m : ℕ),
      ((List.range' s n).foldl
        (fun acc i => fun m' => if m' = i then some v else acc m') values) m
        = if s ≤ m ∧ m < s + n then some v else values m := by
  intro n
  induction n with
  | zero =>
    intro s values m
    rw [show List.range' s 0 = [] from rfl, List.foldl_nil, if_neg (by omega)]
  | succ n ih =>
    intro s values m
    rw [List.range'_succ, List.foldl_cons]
    simp only [ih]
    by_cases hm : m = s
    · subst hm
      rw [if_neg (show ¬(m + 1 ≤ m ∧ m < m + 1 + n) by omega), if_pos (rfl : m = m),
        if_pos (show m ≤ m ∧ m < m + (n + 1) by omega)]
    · rw [if_neg hm]
      split_ifs with h1 h2
      · rfl
      · exact absurd ⟨by omega, by omega⟩ h2
      · exact absurd (⟨by omega, by omega⟩ : s + 1 ≤ m ∧ m < s + 1 + n) h1
      · rfl

/-- The loop `for (i = start; i <= end; i++) newValues[i] = sourceValue`
assigns exactly the months of `[start, end]`. -/
theorem fillLoopValues_apply (values : ℕ → Option ℚ) (v : ℚ) (s e m : ℕ) (hse : s ≤ e) :
    fillLoopValues values v s e m = if s ≤ m ∧ m ≤ e then some v else values m := by
  unfold fillLoopValues
  rw [fillLoop_apply]
  split_ifs with h1 h2 <;> first | rfl | (exfalso; omega)

/-- C7: a drag-fill from source month `s` to target month `t` (1..12) is
a no-op when `s = t` (buffer and dirty flag untouched); otherwise it
assigns the captured source value to every month of the inclusive range
`[min s t, max s t]`, leaves every other month's binding unchanged and
sets the dirty flag; the captured value is the just-edited uncommitted
value when the source cell is being edited, else the stored value. -/
theorem dragFill_correct (st : EditSession) (s t : ℕ) (v : ℚ)
    (hs1 : 1 ≤ s) (hs2 : s ≤ 12) (ht1 : 1 ≤ t) (ht2 : t ≤ 12) :
    (s = t → handleMouseUp st s t v = st) ∧
    (s ≠ t →
      (handleMouseUp st s t v).hasChanges = true ∧
      (∀ m, min s t ≤ m → m ≤ max s t → (handleMouseUp st s t v).values m = some v) ∧
      (∀ m, m < min s t ∨ max s t < m → (handleMouseUp st s t v).values m = st.values m)) ∧
    (∀ month, (handleFillHandleMouseDown st month).2 =
      if st.editingMonth = some month ∧ st.editingValue ≠ "" then commitValueNum st.editingValue
      else (st.values month).getD 0) := by
  refine ⟨?_, ?_, ?_⟩
  · intro hst
    simp [handleMouseUp, hst]
  · intro hst
    unfold handleMouseUp
    rw [if_pos hst]
    refine ⟨rfl, ?_, ?_⟩
    · intro m h1 h2
      show fillLoopValues st.values v (min s t) (max s t) m = some v
      rw [fillLoopValues_apply _ _ _ _ _ (min_le_max)]
      exact if_pos ⟨h1, h2⟩
    · intro m hm
      show fillLoopValues st.values v (min s t) (max s t) m = st.values m
      rw [fillLoopValues_apply _ _ _ _ _ (min_le_max)]
      refine if_neg ?_
      rintro ⟨ha, hb⟩
      rcases hm with hm | hm <;> omega
  · intro month
    unfold handleFillHandleMouseDown
    split <;> rfl

/-- C7 witness: `dragFill_correct` instantiated on a fill from month 3
(holding 80) to month 6: month 4 is overwritten, month 7 untouched. -/
theorem dragFill_correct_witness :
    (handleMouseUp ⟨fun m => if m = 3 then some 80 else none, false, none, ""⟩ 3 6 80).values 4
      = some 80 ∧
    (handleMouseUp ⟨fun m => if m = 3 then some 80 else none, false, none, ""⟩ 3 6 80).values 7
      = none := by
  have h := dragFill_correct ⟨fun m => if m = 3 then some 80 else none, false, none, ""⟩ 3 6 80
    (by norm_num) (by norm_num) (by norm_num) (by norm_num)
  obtain ⟨-, h2, -⟩ := h
  obtain ⟨-, hin, hout⟩ := h2 (by norm_num)
  refine ⟨?_, ?_⟩
  · have := hin 4 (by norm_num) (by norm_num)
    simpa using this
  · have := hout 7 (Or.inr (by norm_num))
    simpa using this

/-- Missing or falsy body fields are rejected with 400 before any
mutation. -/
theorem putComponentValues_badRequest (db : Db) (componentId : ℕ) (year : Option ℤ)
    (values : Option (List (ℤ × ℚ))) (h : (isFalsyYear year || values.isNone) = true) :
    putComponentValues db componentId year values = (RouteResult.badRequest, db) := by
  unfold putComponentValues
  rw [if_pos h]

/-- The conditional upsert loop equals the unconditional loop over the
in-range entries. -/
theorem putFold_filter (componentId : ℕ) (yr : ℤ) :
    ∀ (entries : List (ℤ × ℚ)) (db : Db),
      entries.foldl (fun acc mv =>
        if 1 ≤ mv.1 ∧ mv.1 ≤ 12 then upsertBudgetValue acc componentId yr mv.1 mv.2
        else acc) db
      = applyEntries db componentId yr
          (entries.filter fun mv => decide (1 ≤ mv.1 ∧ mv.1 ≤ 12)) := by
  intro entries
  induction entries with
  | nil => intro db; rfl
  | cons mv rest ih =>
    intro db
    by_cases hmv : 1 ≤ mv.1 ∧ mv.1 ≤ 12
    · simp only [List.foldl_cons, if_pos hmv, ih, List.filter_cons,
        decide_eq_true_eq, hmv, if_true, if_pos hmv]
      rfl
    · simp only [List.foldl_cons, if_neg hmv, ih, List.filter_cons,
        decide_eq_true_eq, hmv, if_false, if_neg hmv]

/-- On a well-formed body for an existing component the route succeeds
and applies exactly the in-range entries. -/
theorem putComponentValues_success (db : Db) (componentId : ℕ) (yr : ℤ)
    (vs : List (ℤ × ℚ)) (hyr : yr ≠ 0) (hc : db.components.contains componentId = true) :
    putComponentValues db componentId (some yr) (some vs) =
      (RouteResult.success,
        applyEntries db componentId yr
          (vs.filter fun mv => decide (1 ≤ mv.1 ∧ mv.1 ≤ 12))) := by
  unfold putComponentValues
  rw [if_neg (by simp [isFalsyYear, hyr]), if_neg (by rw [hc]; simp)]
  rw [show (some yr).getD 0 = yr from rfl, show (some vs).getD [] = vs from rfl]
  rw [putFold_filter]

/-- Applying entries none of which target month `m` leaves the stored
value at month `m` unchanged. -/
theorem applyEntries_frame (componentId c : ℕ) (yr y m : ℤ) :
    ∀ (entries : List (ℤ × ℚ)) (db : Db), (∀ mv ∈ entries, mv.1 ≠ m) →
      (applyEntries db componentId yr entries).budget_values c y m
        = db.budget_values c y m := by
  intro entries
  induction entries with
  | nil => intro db _; rfl
  | cons mv rest ih =>
    intro db h
    rw [show applyEntries db componentId yr (mv :: rest)
        = applyEntries (upsertBudgetValue db componentId yr mv.1 mv.2) componentId yr rest
      from rfl]
    rw [ih _ (fun x hx => h x (List.mem_cons_of_mem _ hx))]
    unfold upsertBudgetValue
    refine if_neg ?_
    rintro ⟨-, -, hme⟩
    exact h mv (List.mem_cons_self _ _) hme.symm

/-- C9 (amended): a bulk update missing required fields (falsy `year` or
missing `values` object) is rejected with an error code before any
mutation; a month key outside [1, 12] is not rejected — it is silently
skipped while the in-range entries of the same payload are upserted and
the route reports success, and no out-of-range month is ever written. -/
theorem putComponentValues_correct :
    (∀ (db : Db) (componentId : ℕ) (year : Option ℤ) (values : Option (List (ℤ × ℚ))),
      (isFalsyYear year || values.isNone) = true →
      putComponentValues db componentId year values = (RouteResult.badRequest, db)) ∧
    (∀ (db : Db) (componentId : ℕ) (yr : ℤ) (vs : List (ℤ × ℚ)),
      yr ≠ 0 → db.components.contains componentId = true →
      putComponentValues db componentId (some yr) (some vs) =
        (RouteResult.success,
          applyEntries db componentId yr
            (vs.filter fun mv => decide (1 ≤ mv.1 ∧ mv.1 ≤ 12)))) ∧
    (∀ (db : Db) (componentId : ℕ) (yr : ℤ) (vs : List (ℤ × ℚ)) (c : ℕ) (y m : ℤ),
      yr ≠ 0 → db.components.contains componentId = true → ¬(1 ≤ m ∧ m ≤ 12) →
      ((putComponentValues db componentId (some yr) (some vs)).2).budget_values c y m
        = db.budget_values c y m) := by
  refine ⟨putComponentValues_badRequest, putComponentValues_success, ?_⟩
  intro db componentId yr vs c y m hyr hc hm
  rw [putComponentValues_success db componentId yr vs hyr hc]
  refine applyEntries_frame componentId c yr y m _ db ?_
  intro mv hmv
  have := List.of_mem_filter hmv
  simp only [decide_eq_true_eq] at this
  omega

/-- C9 witness: a payload containing month key 13 never writes month 13. -/
theorem putComponentValues_correct_witness :
    ((putComponentValues ⟨[7], fun _ _ _ => none⟩ 7 (some 2024)
        (some [(13, 5), (1, 10)])).2).budget_values 7 2024 13 = none := by
  have h := putComponentValues_correct.2.2 ⟨[7], fun _ _ _ => none⟩ 7 2024
    [(13, 5), (1, 10)] 7 2024 13 (by norm_num) (by decide) (by omega)
  simpa using h

/-- C9 counterexample: a payload with the out-of-range month key 13 and
the in-range entry (1, 10) is not rejected: the route reports success
and the month-1 row is created, so mutation does happen and no error
code is returned. -/
theorem putComponentValues_counterexample :
    (putComponentValues ⟨[7], fun _ _ _ => none⟩ 7 (some 2024)
        (some [(13, 5), (1, 10)])).1 = RouteResult.success ∧
    ((putComponentValues ⟨[7], fun _ _ _ => none⟩ 7 (some 2024)
        (some [(13, 5), (1, 10)])).2).budget_values 7 2024 1 = some 10 ∧
    (⟨[7], fun _ _ _ => none⟩ : Db).budget_values 7 2024 1 = none :=
  ⟨by with_unfolding_all rfl, by with_unfolding_all rfl, rfl⟩

/-- Key/value characterization of the paste month object. -/
theorem lookupMonth_vtmAux :
    ∀ (vals : List ℚ) (s m : ℕ),
      lookupMonth (vtmAux vals s) m =
        if s ≤ m ∧ m ≤ 12 ∧ m - s < vals.length then vals[m - s]? else none := by
  intro vals
  induction vals with
  | nil =>
    intro s m
    simp [vtmAux, lookupMonth]
  | cons v rest ih =>
    intro s m
    by_cases hs : s ≤ 12
    · simp only [vtmAux, if_pos hs]
      by_cases hm : m = s
      · subst hm
        unfold lookupMonth
        rw [List.find?_cons_of_pos _ (by simp)]
        rw [if_pos ⟨le_refl _, hs, by simp⟩]
        simp
      · have hlk := ih (s + 1) m
        unfold lookupMonth at hlk ⊢
        rw [List.find?_cons_of_neg _ (by simp [Ne.symm hm]), hlk]
        simp only [List.length_cons]
        split_ifs with h1 h2
        · have hms : m - s = (m - (s + 1)) + 1 := by omega
          rw [hms, List.getElem?_cons_succ]
        · exact absurd ⟨by omega, by omega, by omega⟩ h2
        · exact absurd
            (⟨by omega, by omega, by omega⟩ :
              s + 1 ≤ m ∧ m ≤ 12 ∧ m - (s + 1) < rest.length) h1
        · rfl
    · simp only [vtmAux, if_neg hs]
      rw [show lookupMonth [] m = none from rfl]
      rw [if_neg (by rintro ⟨h1, h2, h3⟩; omega)]

/-- C10: converting a parsed value list to a monthly map for paste binds
exactly the months `s .. min 12 (s + |v| - 1)`, with month `s + i` bound
to `v[i]`; values whose target month would exceed 12 are silently
discarded, and merging the map over the existing buffer leaves every
month outside the produced key set at its previous binding. -/
theorem valuesToMonthlyValues_correct (vals : List ℚ) (s : ℕ)
    (hs1 : 1 ≤ s) (hs2 : s ≤ 12) :
    (∀ i, i < vals.length → s + i ≤ 12 →
      lookupMonth (valuesToMonthlyValues vals s) (s + i) = vals[i]?) ∧
    (∀ m, m < s ∨ 12 < m ∨ s + vals.length ≤ m →
      lookupMonth (valuesToMonthlyValues vals s) m = none) ∧
    (∀ (prev : ℕ → Option ℚ) m, m < s ∨ 12 < m ∨ s + vals.length ≤ m →
      mergePaste prev (valuesToMonthlyValues vals s) m = prev m) := by
  have hnone : ∀ m, m < s ∨ 12 < m ∨ s + vals.length ≤ m →
      lookupMonth (valuesToMonthlyValues vals s) m = none := by
    intro m hm
    rw [valuesToMonthlyValues, lookupMonth_vtmAux]
    exact if_neg (by rintro ⟨h1, h2, h3⟩; omega)
  refine ⟨?_, hnone, ?_⟩
  · intro i hi hle
    rw [valuesToMonthlyValues, lookupMonth_vtmAux]
    rw [if_pos ⟨by omega, by omega, by omega⟩]
    congr 1
    omega
  · intro prev m hm
    unfold mergePaste
    rw [hnone m hm]

/-- C10 witness: `valuesToMonthlyValues_correct` instantiated with three
values anchored at month 11: month 11 receives the first value, the
value targeting month 13 is discarded. -/
theorem valuesToMonthlyValues_correct_witness :
    lookupMonth (valuesToMonthlyValues [10, 20, 30] 11) 11 = some 10 ∧
    lookupMonth (valuesToMonthlyValues [10, 20, 30] 11) 13 = none := by
  have h := valuesToMonthlyValues_correct [10, 20, 30] 11 (by norm_num) (by norm_num)
  refine ⟨?_, ?_⟩
  · have h1 := h.1 0 (by norm_num) (by norm_num)
    simpa using h1
  · exact h.2.1 13 (Or.inr (Or.inl (by norm_num)))

/-- Characterization of `commaDecimalRev` in terms of the reversed
string's shape. -/
theorem commaDecimalRev_iff (r : List Char) :
    commaDecimalRev r = true ↔
      (∃ d t, r = d :: ',' :: t ∧ isDigitChar d = true) ∨
      (∃ d e t, r = e :: d :: ',' :: t ∧ isDigitChar d = true ∧ isDigitChar e = true) := by
  rcases r with - | ⟨x, - | ⟨y, t⟩⟩
  · simp [commaDecimalRev]
  · simp [commaDecimalRev]
  · by_cases hy : y = ','
    · subst hy
      rw [show commaDecimalRev (x :: ',' :: t) = isDigitChar x from rfl]
      constructor
      · intro h
        exact Or.inl ⟨x, t, rfl, h⟩
      · rintro (⟨d, t2, heq2, hd⟩ | ⟨d, e, t2, heq2, hd, he⟩)
        · obtain ⟨rfl, -⟩ := List.cons.inj heq2
          exact hd
        · obtain ⟨rfl, h2⟩ := List.cons.inj heq2
          obtain ⟨h3, -⟩ := List.cons.inj h2
          rw [← h3] at hd
          exact absurd hd (by decide)
    · rw [show commaDecimalRev (x :: y :: t)
          = if y = ',' then isDigitChar x
            else
              match t with
              | c3 :: _ => if c3 = ',' then isDigitChar x && isDigitChar y else false
              | [] => false
        from rfl, if_neg hy]
      rcases t with - | ⟨z, t1⟩
      · constructor
        · intro h
          exact absurd h (by simp)
        · rintro (⟨d, t2, heq2, hd⟩ | ⟨d, e, t2, heq2, hd, he⟩)
          · obtain ⟨-, h2⟩ := List.cons.inj heq2
            obtain ⟨h3, -⟩ := List.cons.inj h2
            exact absurd h3 hy
          · obtain ⟨-, h2⟩ := List.cons.inj heq2
            exact absurd h2 (by simp)
      · by_cases hz : z = ','
        · subst hz
          rw [show (match (',' :: t1 : List Char) with
              | c3 :: _ => if c3 = ',' then isDigitChar x && isDigitChar y else false
              | [] => false)
              = if (',' : Char) = ',' then isDigitChar x && isDigitChar y else false
            from rfl, if_pos rfl]
          constructor
          · intro h
            simp only [Bool.and_eq_true] at h
            exact Or.inr ⟨y, x, t1, rfl, h.2, h.1⟩
          · rintro (⟨d, t2, heq2, hd⟩ | ⟨d, e, t2, heq2, hd, he⟩)
            · obtain ⟨-, h2⟩ := List.cons.inj heq2
              obtain ⟨h3, -⟩ := List.cons.inj h2
              exact absurd h3 hy
            · obtain ⟨rfl, h2⟩ := List.cons.inj heq2
              obtain ⟨rfl, -⟩ := List.cons.inj h2
              simp [hd, he]
        · rw [show (match (z :: t1 : List Char) with
              | c3 :: _ => if c3 = ',' then isDigitChar x && isDigitChar y else false
              | [] => false)
              = if z = ',' then isDigitChar x && isDigitChar y else false
            from rfl, if_neg hz]
          constructor
          · intro h
            exact absurd h (by simp)
          · rintro (⟨d, t2, heq2, hd⟩ | ⟨d, e, t2, heq2, hd, he⟩)
            · obtain ⟨-, h2⟩ := List.cons.inj heq2
              obtain ⟨h3, -⟩ := List.cons.inj h2
              exact absurd h3 hy
            · obtain ⟨-, h2⟩ := List.cons.inj heq2
              obtain ⟨-, h3⟩ := List.cons.inj h2
              obtain ⟨h4, -⟩ := List.cons.inj h3
              exact absurd h4 hz

/-- Characterization of `threeDigitsAt`: three digits head the input. -/
theorem threeDigitsAt_iff (l : List Char) :
    threeDigitsAt l = true ↔
      ∃ a b c r, l = a :: b :: c :: r ∧
        isDigitChar a = true ∧ isDigitChar b = true ∧ isDigitChar c = true := by
  rcases l with - | ⟨a, - | ⟨b, - | ⟨c, r⟩⟩⟩
  · simp [threeDigitsAt]
  · simp [threeDigitsAt]
  · simp [threeDigitsAt]
  · rw [show threeDigitsAt (a :: b :: c :: r)
        = (isDigitChar a && isDigitChar b && isDigitChar c) from rfl]
    constructor
    · intro h
      simp only [Bool.and_eq_true] at h
      exact ⟨a, b, c, r, rfl, h.1.1, h.1.2, h.2⟩
    · rintro ⟨a2, b2, c2, r2, heq, ha, hb, hc⟩
      obtain ⟨rfl, h2⟩ := List.cons.inj heq
      obtain ⟨rfl, h3⟩ := List.cons.inj h2
      obtain ⟨rfl, -⟩ := List.cons.inj h3
      simp [ha, hb, hc]

/-- Characterization of the unanchored test `/\.\d{3}/`: somewhere in
the string a dot is directly followed by three digits (more characters
may follow). -/
theorem hasDotThousands_iff (cs : List Char) :
    hasDotThousands cs = true ↔
      ∃ l1 a b c l2, cs = l1 ++ '.' :: a :: b :: c :: l2 ∧
        isDigitChar a = true ∧ isDigitChar b = true ∧ isDigitChar c = true := by
  induction cs with
  | nil =>
    simp [hasDotThousands]
  | cons x rest ih =>
    rw [show hasDotThousands (x :: rest)
        = ((x = '.' && threeDigitsAt rest) || hasDotThousands rest) from rfl]
    constructor
    · intro h
      simp only [Bool.or_eq_true, Bool.and_eq_true, decide_eq_true_eq] at h
      rcases h with ⟨hx, h3⟩ | h
      · obtain ⟨a, b, c, r, heq, ha, hb, hc⟩ := threeDigitsAt_iff rest |>.mp h3
        exact ⟨[], a, b, c, r, by rw [hx, heq]; rfl, ha, hb, hc⟩
      · obtain ⟨l1, a, b, c, l2, heq, ha, hb, hc⟩ := ih.mp h
        exact ⟨x :: l1, a, b, c, l2, by rw [heq]; rfl, ha, hb, hc⟩
    · rintro ⟨l1, a, b, c, l2, heq, ha, hb, hc⟩
      simp only [Bool.or_eq_true, Bool.and_eq_true, decide_eq_true_eq]
      rcases l1 with - | ⟨x1, l1⟩
      · obtain ⟨rfl, h2⟩ := List.cons.inj heq
        left
        exact ⟨rfl, (threeDigitsAt_iff rest).mpr ⟨a, b, c, l2, h2, ha, hb, hc⟩⟩
      · obtain ⟨-, h2⟩ := List.cons.inj heq
        right
        exact ih.mpr ⟨l1, a, b, c, l2, h2, ha, hb, hc⟩

/-- Characterization of the test `/,\d{1,2}$/` in terms of the string's
trailing shape. -/
theorem hasCommaDecimal_iff (cs : List Char) :
    hasCommaDecimal cs = true ↔
      (∃ l1 d, cs = l1 ++ [',', d] ∧ isDigitChar d = true) ∨
      (∃ l1 d e, cs = l1 ++ [',', d, e] ∧ isDigitChar d = true ∧ isDigitChar e = true) := by
  rw [hasCommaDecimal, commaDecimalRev_iff]
  constructor
  · rintro (⟨d, t, hr, hd⟩ | ⟨d, e, t, hr, hd, he⟩)
    · left
      refine ⟨t.reverse, d, ?_, hd⟩
      have h2 := congrArg List.reverse hr
      simpa [List.append_assoc] using h2
    · right
      refine ⟨t.reverse, d, e, ?_, hd, he⟩
      have h2 := congrArg List.reverse hr
      simpa [List.append_assoc] using h2
  · rintro (⟨l1, d, hceq, hd⟩ | ⟨l1, d, e, hceq, hd, he⟩)
    · exact Or.inl ⟨d, l1.reverse, by simp [hceq], hd⟩
    · exact Or.inr ⟨d, e, l1.reverse, by simp [hceq], hd, he⟩

/-- C6 counterexample: on the cell "1.2345" the claimed "dot followed by
exactly 3 digits" European signal does not fire (the digit run after the
dot has length 4), which would yield the US parse 1.2345; the code's
unanchored regex `/\.\d{3}/` does fire, strips the dot and yields
12345 — so the claimed normalization misdescribes the parser. -/
theorem parseCell_exactly_three_counterexample :
    parseCellTrimmed ("1.2345".data) = (12345, false) ∧
    parseCellClaimed ("1.2345".data) = (12345 / 10000, false) ∧
    parseCellClaimed ("1.2345".data) ≠ parseCellTrimmed ("1.2345".data) := by
  have h1 : parseCellTrimmed ("1.2345".data) = (12345, false) := by with_unfolding_all rfl
  have h2 : parseCellClaimed ("1.2345".data) = (12345 / 10000, false) := by
    with_unfolding_all rfl
  refine ⟨h1, h2, ?_⟩
  rw [h1, h2]
  intro hcontra
  rw [Prod.mk.injEq] at hcontra
  have h3 := hcontra.1
  norm_num at h3

/-- C6 (amended): the clipboard cell parser detects the European format
by a trailing comma followed by one or two digits, or by a dot followed
by (at least) three digits anywhere — in which case it strips all dots
and turns the first remaining comma into a dot, otherwise it strips
commas as US thousands separators; currency symbols are stripped and
parenthesized values become negatives.  "1.234,56" parses to 1234.56,
"1,234.56" to 1234.56, "(100)" to -100, "€50" to 50, "-" to 0, and
"abc" to 0 with exactly one error entry naming 1-based position 1. -/
theorem parseClipboardTSV_correct :
    (∀ cs : List Char, hasCommaDecimal cs = true ↔
      (∃ l1 d, cs = l1 ++ [',', d] ∧ isDigitChar d = true) ∨
      (∃ l1 d e, cs = l1 ++ [',', d, e] ∧ isDigitChar d = true ∧ isDigitChar e = true)) ∧
    (∀ cs : List Char, hasDotThousands cs = true ↔
      ∃ l1 a b c l2, cs = l1 ++ '.' :: a :: b :: c :: l2 ∧
        isDigitChar a = true ∧ isDigitChar b = true ∧ isDigitChar c = true) ∧
    parseCellTrimmed ("1.234,56".data) = (123456 / 100, false) ∧
    parseCellTrimmed ("1,234.56".data) = (123456 / 100, false) ∧
    parseCellTrimmed ("(100)".data) = (-100, false) ∧
    parseCellTrimmed ("€50".data) = (50, false) ∧
    parseCellTrimmed ("-".data) = (0, false) ∧
    parseClipboardTSV "abc" =
      { values := [0], rawValues := ["abc"],
        errors := ["Invalid value at position 1: \"abc\""], isValid := false } :=
  ⟨hasCommaDecimal_iff, hasDotThousands_iff,
    by with_unfolding_all rfl, by with_unfolding_all rfl, by with_unfolding_all rfl,
    by with_unfolding_all rfl, by with_unfolding_all rfl, by with_unfolding_all rfl⟩

end Mattoni